import Mathlib

/-!
Verification development for the toy assemble-and-run core of the anomiaos
repository (src/code_system.rs).  The assembler (`compile_code`), the immediate
parser (`parse_immediate`), the machine loop (`execute`) and the public entry
point (`execute_code_file`) are embedded shallowly: machine integers are `Nat`
with explicit reduction modulo 2^32 / 2^64 where the Rust code wraps, the
4096-byte bytecode buffer is a `List Nat` of length 4096, and the Rust panic on
an out-of-bounds array write is modelled by an explicit `panicked` outcome
(every buffer write goes through `setByte`, which fails on an out-of-range
index exactly where the Rust indexing would panic).
-/

set_option maxRecDepth 20000

namespace CodeSystem

/-- Bytecode buffer: the `memory: [u8; 4096]` field, bytes as `Nat`. -/
abbrev Memory := List Nat

/-- Fresh executor memory: `[0; 4096]` from `CodeExecutor::new`. -/
def freshMemory : Memory := List.replicate 4096 0

/-- Read `memory[i]`.  Execution only ever reads inside the program bounds, so
the out-of-range default 0 is never observable on real programs. -/
def getByte : Memory → Nat → Nat
  | [], _ => 0
  | b :: _, 0 => b
  | _ :: rest, i + 1 => getByte rest i

/-- Write `memory[i] = b`.  Returns `none` when `i` is out of range: this is
where the Rust `self.memory[i] = b` would panic. -/
def setByte : Memory → Nat → Nat → Option Memory
  | [], _, _ => none
  | _ :: rest, 0, b => some (b :: rest)
  | h :: rest, i + 1, b => (setByte rest i b).map (fun r => h :: r)

/-- Register file of the virtual CPU (`VirtualCpu` in the source).  All
register values are kept below 2^32 by the operations; `eip` is the `usize`
instruction pointer. -/
structure VirtualCpu where
  eax : Nat
  ebx : Nat
  ecx : Nat
  edx : Nat
  eip : Nat
  flags : Nat
deriving DecidableEq

/-- Zeroed CPU, `VirtualCpu::new` (also the effect of `VirtualCpu::reset`). -/
def VirtualCpu.new : VirtualCpu := ⟨0, 0, 0, 0, 0, 0⟩

/-! ### Text helpers (the `str` operations the assembler uses) -/

/-- ASCII whitespace, standing in for Rust `char::is_whitespace` on the ASCII
inputs this language uses. -/
def isWs (c : Char) : Bool :=
  c == ' ' || c == '\t' || c == '\n' || c == '\r' || c == '\x0b' || c == '\x0c'

/-- Model of `str::trim`: drop whitespace from both ends. -/
def trimChars (l : List Char) : List Char :=
  ((l.dropWhile isWs).reverse.dropWhile isWs).reverse

/-- Split a char list at newline characters; always returns at least one
(possibly empty) segment, like `str::split('\n')`. -/
def linesAux : List Char → List Char → List (List Char)
  | [], acc => [acc.reverse]
  | c :: cs, acc =>
    if c == '\n' then acc.reverse :: linesAux cs [] else linesAux cs (c :: acc)

/-- Model of Rust `str::lines`: split at `'\n'`, strip a trailing `'\r'` from
every newline-terminated segment, and drop a final empty unterminated
segment. -/
def rustLines (s : String) : List (List Char) :=
  let segs := linesAux s.data []
  let body := segs.dropLast.map
    (fun l => if l.getLast? = some '\r' then l.dropLast else l)
  match segs.getLast? with
  | some [] => body
  | some last => body ++ [last]
  | none => body

/-- Accumulating splitter behind `splitWs`. -/
def splitWsAux : List Char → List Char → List (List Char)
  | [], acc => if acc.isEmpty then [] else [acc.reverse]
  | c :: cs, acc =>
    if isWs c then
      if acc.isEmpty then splitWsAux cs [] else acc.reverse :: splitWsAux cs []
    else
      splitWsAux cs (c :: acc)

/-- Model of `str::split_whitespace`: maximal non-whitespace runs, empties
discarded. -/
def splitWs (cs : List Char) : List (List Char) :=
  splitWsAux cs []

/-- ASCII lowercase fold of the mnemonic, over at most the first 16 characters
(the `instr_buf: [u8; 16]` truncation in the source). -/
def asciiLower (cs : List Char) : List Char :=
  (cs.take 16).map
    (fun c => if 65 ≤ c.toNat ∧ c.toNat ≤ 90 then Char.ofNat (c.toNat + 32) else c)

/-- Model of `trim_end_matches(',')`: drop every trailing comma. -/
def trimComma (cs : List Char) : List Char :=
  (cs.reverse.dropWhile (fun c => c == ',')).reverse

/-! ### Immediate parsing (`CodeExecutor::parse_immediate`) -/

/-- Hex accumulation loop: `result = (result << 4) | digit` in `u32`, any
non-hex-digit character is fatal. -/
def hexLoop (r : Nat) : List Char → Except String Nat
  | [] => .ok r
  | c :: cs =>
    let r := (r * 16) % 2 ^ 32
    if 48 ≤ c.toNat ∧ c.toNat ≤ 57 then hexLoop (r ||| (c.toNat - 48)) cs
    else if 97 ≤ c.toNat ∧ c.toNat ≤ 102 then hexLoop (r ||| (c.toNat - 97 + 10)) cs
    else if 65 ≤ c.toNat ∧ c.toNat ≤ 70 then hexLoop (r ||| (c.toNat - 65 + 10)) cs
    else .error "Invalid hex digit"

/-- Decimal accumulation loop: `result = result * 10 + digit` in `u32`
(silently wrapping modulo 2^32), any non-digit character is fatal. -/
def decLoop (r : Nat) : List Char → Except String Nat
  | [] => .ok r
  | c :: cs =>
    if c.isDigit then decLoop ((r * 10 + (c.toNat - 48)) % 2 ^ 32) cs
    else .error "Invalid decimal digit"

/-- Model of `CodeExecutor::parse_immediate`: a `0x`/`0X` prefix selects the
hex loop over the remainder, otherwise the whole token goes through the
decimal loop. -/
def parse_immediate (s : String) : Except String Nat :=
  match s.data with
  | '0' :: 'x' :: rest => hexLoop 0 rest
  | '0' :: 'X' :: rest => hexLoop 0 rest
  | cs => decLoop 0 cs

/-! ### Compilation (`CodeExecutor::compile_code`) -/

/-- Result of a compilation step: success, a compile error string, or a Rust
panic from an out-of-bounds buffer write. -/
inductive CRes (α : Type) where
  | ok : α → CRes α
  | err : String → CRes α
  | panicked : CRes α
deriving DecidableEq

/-- Write the four little-endian bytes of a `u32` at positions
`i, i+1, i+2, i+3` (the `copy_from_slice(&val.to_le_bytes())` of the mov/cmp
branches). -/
def emitImm32 (mem : Memory) (i v : Nat) : Option Memory := do
  let m1 ← setByte mem i (v % 256)
  let m2 ← setByte m1 (i + 1) (v / 256 % 256)
  let m3 ← setByte m2 (i + 2) (v / 65536 % 256)
  setByte m3 (i + 3) (v / 16777216 % 256)

/-- Opcode byte for a MOV destination register, `none` for an unsupported
destination. -/
def movOpcodeFor (dest : List Char) : Option Nat :=
  if dest = "eax".data then some 0xB8
  else if dest = "ebx".data then some 0xBB
  else if dest = "ecx".data then some 0xB9
  else if dest = "edx".data then some 0xBA
  else none

/-- Emission of a 5-byte opcode+imm32 instruction (mov/cmp bodies after their
shared capacity check): write the opcode byte, parse the immediate token, then
write the four immediate bytes. -/
def emitImm32Instr (mem : Memory) (n opb : Nat) (tok : List Char) :
    CRes (Memory × Nat) :=
  match setByte mem n opb with
  | none => .panicked
  | some m1 =>
    match parse_immediate (String.mk tok) with
    | .error _ => .err "Invalid immediate value"
    | .ok v =>
      match emitImm32 m1 (n + 1) v with
      | none => .panicked
      | some m2 => .ok (m2, n + 5)

/-- Emission of a 2-byte jump instruction (je/jmp bodies after their capacity
check): write the opcode byte, parse the offset token, then write the offset
truncated to a byte (`offset as u8`). -/
def emitJumpInstr (mem : Memory) (n opb : Nat) (tok : List Char) :
    CRes (Memory × Nat) :=
  match setByte mem n opb with
  | none => .panicked
  | some m1 =>
    match parse_immediate (String.mk tok) with
    | .error _ => .err "Invalid jump offset"
    | .ok off =>
      match setByte m1 (n + 1) (off % 256) with
      | none => .panicked
      | some m2 => .ok (m2, n + 2)

/-- Emission of the fixed two-byte add/sub encodings.  The source's capacity
check for these branches only guarantees one free byte, so the second write
can genuinely go out of bounds (panic). -/
def emitPair (mem : Memory) (n b0 b1 : Nat) : CRes (Memory × Nat) :=
  match setByte mem n b0 with
  | none => .panicked
  | some m1 =>
    match setByte m1 (n + 1) b1 with
    | none => .panicked
    | some m2 => .ok (m2, n + 2)

/-- Emission of a single opcode byte (nop/halt/stop/ret) after its capacity
check. -/
def emitOne (mem : Memory) (n b : Nat) : CRes (Memory × Nat) :=
  match setByte mem n b with
  | none => .panicked
  | some m1 => .ok (m1, n + 1)

/-- Size of the fixed bytecode buffer: `self.memory.len()` is always 4096 for
the `[u8; 4096]` array, so the capacity checks compare against this
constant. -/
def MEM_SIZE : Nat := 4096

/-- Compile one source line, mirroring one iteration of the line loop of
`compile_code`: trim, skip blank and `;` lines, split into at most 8
whitespace tokens, lowercase the mnemonic, dispatch.  Capacity checks compare
against `self.memory.len()` exactly as the source does (`≥` throughout). -/
def compileLine (mem : Memory) (n : Nat) (rawLine : List Char) :
    CRes (Memory × Nat) :=
  let line := trimChars rawLine
  if line = [] then .ok (mem, n)
  else if line.headD ' ' == ';' then .ok (mem, n)
  else
    let parts := (splitWs line).take 8
    match parts with
    | [] => .ok (mem, n)
    | p0 :: _ =>
      let instruction := asciiLower p0
      if instruction = "nop".data then
        if n ≥ MEM_SIZE then .err "Program too large"
        else emitOne mem n 0x90
      else if instruction = "mov".data then
        if parts.length < 3 then .err "MOV requires 2 operands"
        else
          let dest := trimComma (parts.getD 1 [])
          let src := parts.getD 2 []
          if n + 5 ≥ MEM_SIZE then .err "Program too large"
          else
            match movOpcodeFor dest with
            | some opb => emitImm32Instr mem n opb src
            | none => .err "Unsupported MOV destination register"
      else if instruction = "add".data then
        if parts.length < 3 then .err "ADD requires 2 operands"
        else if trimComma (parts.getD 1 []) = "eax".data ∧
            parts.getD 2 [] = "ebx".data then
          if n ≥ MEM_SIZE then .err "Program too large"
          else emitPair mem n 0x01 0xD8
        else .err "Unsupported ADD operands"
      else if instruction = "sub".data then
        if parts.length < 3 then .err "SUB requires 2 operands"
        else if trimComma (parts.getD 1 []) = "eax".data ∧
            parts.getD 2 [] = "ebx".data then
          if n ≥ MEM_SIZE then .err "Program too large"
          else emitPair mem n 0x29 0xD8
        else .err "Unsupported SUB operands"
      else if instruction = "cmp".data then
        if parts.length < 3 then .err "CMP requires 2 operands"
        else if trimComma (parts.getD 1 []) = "eax".data then
          if n + 5 ≥ MEM_SIZE then .err "Program too large"
          else emitImm32Instr mem n 0x3D (parts.getD 2 [])
        else .err "Unsupported CMP operands"
      else if instruction = "je".data ∨ instruction = "jz".data then
        if parts.length < 2 then .err "JE requires 1 operand"
        else if n + 2 ≥ MEM_SIZE then .err "Program too large"
        else emitJumpInstr mem n 0x74 (parts.getD 1 [])
      else if instruction = "jmp".data then
        if parts.length < 2 then .err "JMP requires 1 operand"
        else if n + 2 ≥ MEM_SIZE then .err "Program too large"
        else emitJumpInstr mem n 0xEB (parts.getD 1 [])
      else if instruction = "halt".data ∨ instruction = "stop".data then
        if n ≥ MEM_SIZE then .err "Program too large"
        else emitOne mem n 0xCC
      else if instruction = "ret".data then
        if n ≥ MEM_SIZE then .err "Program too large"
        else emitOne mem n 0xC3
      else .err "Unknown instruction"

/-- Fold `compileLine` over the source lines, aborting at the first error or
panic, exactly like the `for line in source.lines()` loop. -/
def compileLines (mem : Memory) (n : Nat) : List (List Char) → CRes (Memory × Nat)
  | [] => .ok (mem, n)
  | l :: ls =>
    match compileLine mem n l with
    | .ok (m, n2) => compileLines m n2 ls
    | .err e => .err e
    | .panicked => .panicked

/-- Model of `CodeExecutor::compile_code` on a freshly constructed executor
(zeroed 4096-byte buffer): returns the written buffer together with the
bytecode length. -/
def compile_code (source : String) : CRes (Memory × Nat) :=
  compileLines freshMemory 0 (rustLines source)

/-- Convenience projection: the emitted bytecode bytes (buffer prefix of the
returned length), when compilation succeeds. -/
def compiledBytes (source : String) : Option (List Nat) :=
  match compile_code source with
  | .ok (mem, n) => some (mem.take n)
  | _ => none

/-- Convenience projection: the full 4096-byte buffer after a successful
compilation (empty list on failure). -/
def memOf (source : String) : Memory :=
  match compile_code source with
  | .ok (mem, _) => mem
  | _ => []

/-! ### Execution (`CodeExecutor::execute`) -/

/-- Instruction budget, the `max_instructions` field of `CodeExecutor::new`. -/
def max_instructions : Nat := 10000

/-- Reinterpret a byte as Rust `i8` (the `offset as i8` cast). -/
def toI8 (b : Nat) : Int :=
  if b % 256 < 128 then (b % 256 : Nat) else (b % 256 : Nat) - 256

/-- Reinterpret a `usize` value as Rust `i32` (truncating `as i32` cast). -/
def toI32 (n : Nat) : Int :=
  if n % 2 ^ 32 < 2 ^ 31 then (n % 2 ^ 32 : Nat) else (n % 2 ^ 32 : Nat) - 2 ^ 32

/-- Wrap an integer into the `i32` range (release-mode wrapping addition). -/
def wrapI32 (x : Int) : Int :=
  (x + 2 ^ 31).emod (2 ^ 32) - 2 ^ 31

/-- Cast an `i32` value to `usize`: sign-extend to 64 bits and reinterpret
unsigned, so a negative jump result becomes a huge instruction pointer. -/
def i32ToUsize (x : Int) : Nat :=
  (x.emod (2 ^ 64)).toNat

/-- New instruction pointer of a relative jump:
`(eip as i32 + 2 + offset as i32) as usize` with the offset byte first cast
through `i8`. -/
def jmpDest (eip : Nat) (offByte : Nat) : Nat :=
  i32ToUsize (wrapI32 (wrapI32 (toI32 eip + 2) + toI8 offByte))

/-- Little-endian `u32` immediate at `memory[i+1 .. i+4]`
(`u32::from_le_bytes`). -/
def readImm32 (mem : Memory) (i : Nat) : Nat :=
  getByte mem (i + 1) + getByte mem (i + 2) * 256 +
    getByte mem (i + 3) * 65536 + getByte mem (i + 4) * 16777216

/-- Outcome of one fetch-decode cycle: continue with a new CPU state, stop
the loop (HALT/INT3 or RET `break`), or a runtime error `return`. -/
inductive StepRes where
  | next : VirtualCpu → StepRes
  | halt : StepRes
  | err : String → StepRes
deriving DecidableEq

/-- One fetch-decode cycle of the `while` loop body of `execute`: fetch the
opcode at `eip` and dispatch.  Every multi-byte instruction first checks that
its operand bytes lie inside the program. -/
def step (mem : Memory) (len : Nat) (cpu : VirtualCpu) : StepRes :=
  let op := getByte mem cpu.eip
  if op = 0x90 then
    .next { cpu with eip := cpu.eip + 1 }
  else if op = 0xB8 then
    if cpu.eip + 5 > len then .err "Unexpected end of program"
    else .next { cpu with eax := readImm32 mem cpu.eip, eip := cpu.eip + 5 }
  else if op = 0xBB then
    if cpu.eip + 5 > len then .err "Unexpected end of program"
    else .next { cpu with ebx := readImm32 mem cpu.eip, eip := cpu.eip + 5 }
  else if op = 0xB9 then
    if cpu.eip + 5 > len then .err "Unexpected end of program"
    else .next { cpu with ecx := readImm32 mem cpu.eip, eip := cpu.eip + 5 }
  else if op = 0xBA then
    if cpu.eip + 5 > len then .err "Unexpected end of program"
    else .next { cpu with edx := readImm32 mem cpu.eip, eip := cpu.eip + 5 }
  else if op = 0x01 then
    if cpu.eip + 2 > len then .err "Unexpected end of program"
    else .next { cpu with eax := (cpu.eax + cpu.ebx) % 2 ^ 32, eip := cpu.eip + 2 }
  else if op = 0x29 then
    if cpu.eip + 2 > len then .err "Unexpected end of program"
    else .next { cpu with
      eax := (cpu.eax + (2 ^ 32 - cpu.ebx % 2 ^ 32)) % 2 ^ 32, eip := cpu.eip + 2 }
  else if op = 0x3D then
    if cpu.eip + 5 > len then .err "Unexpected end of program"
    else if cpu.eax = readImm32 mem cpu.eip then
      .next { cpu with flags := cpu.flags ||| 0x40, eip := cpu.eip + 5 }
    else
      .next { cpu with flags := cpu.flags &&& 0xFFFFFFBF, eip := cpu.eip + 5 }
  else if op = 0x74 then
    if cpu.eip + 2 > len then .err "Unexpected end of program"
    else if cpu.flags &&& 0x40 ≠ 0 then
      .next { cpu with eip := jmpDest cpu.eip (getByte mem (cpu.eip + 1)) }
    else .next { cpu with eip := cpu.eip + 2 }
  else if op = 0xEB then
    if cpu.eip + 2 > len then .err "Unexpected end of program"
    else .next { cpu with eip := jmpDest cpu.eip (getByte mem (cpu.eip + 1)) }
  else if op = 0xCC then .halt
  else if op = 0xC3 then .halt
  else .err "Unknown opcode"

/-- State at loop exit: CPU, `instruction_count`, the number of fetch-decode
cycles performed, and the in-loop error if one occurred. -/
structure LoopOut where
  cpu : VirtualCpu
  count : Nat
  fetches : Nat
  err : Option String
deriving DecidableEq

/-- Fueled form of the `while self.cpu.eip < bytecode_len &&
instruction_count < self.max_instructions` loop.  The loop condition is the
source's; the fuel argument only bounds the structural recursion and never
cuts the loop short when it satisfies `max_instructions - count ≤ fuel`
(which `execLoop` arranges): `count < max_instructions` then forces
`fuel > 0`.  A `.halt` step breaks out of the loop without incrementing
`instruction_count`, exactly as the source's `break` skips the increment. -/
def execLoopAux (mem : Memory) (len : Nat) :
    Nat → VirtualCpu → Nat → LoopOut
  | fuel, cpu, count =>
    if cpu.eip < len ∧ count < max_instructions then
      match fuel with
      | 0 => ⟨cpu, count, 0, none⟩
      | f + 1 =>
        match step mem len cpu with
        | .err e => ⟨cpu, count, 1, some e⟩
        | .halt => ⟨cpu, count, 1, none⟩
        | .next c =>
          let r := execLoopAux mem len f c (count + 1)
          ⟨r.cpu, r.count, r.fetches + 1, r.err⟩
    else ⟨cpu, count, 0, none⟩

/-- The execute loop from instruction count `count` onward. -/
def execLoop (mem : Memory) (len : Nat) (cpu : VirtualCpu) (count : Nat) :
    LoopOut :=
  execLoopAux mem len (max_instructions - count) cpu count

/-- Post-loop epilogue of `execute`: an in-loop `return Err` wins, otherwise
reaching the budget is the execution-limit error, otherwise success with the
final registers (which the source then renders as a report). -/
def finishRun (r : LoopOut) : Except String VirtualCpu :=
  match r.err with
  | some e => .error e
  | none =>
    if r.count ≥ max_instructions then .error "Program execution limit exceeded"
    else .ok r.cpu

/-- Model of `CodeExecutor::execute`: `self.cpu.reset()` discards the
executor's prior CPU state, then the loop runs from a zeroed CPU and
instruction count 0. -/
def executeFrom (priorCpu : VirtualCpu) (mem : Memory) (len : Nat) :
    Except String VirtualCpu :=
  finishRun (execLoop mem len VirtualCpu.new 0)

/-- Combined outcome of compiling a source text and running the result on a
fresh executor. -/
inductive RunOut where
  | ok : VirtualCpu → RunOut
  | error : String → RunOut
  | panicked : RunOut
deriving DecidableEq

/-- Compile a source text on a fresh executor and execute the bytecode
(`compile_code` followed by `execute`, with no zero-length check). -/
def compile_and_execute (source : String) : RunOut :=
  match compile_code source with
  | .panicked => .panicked
  | .err e => .error e
  | .ok (mem, len) =>
    match executeFrom VirtualCpu.new mem len with
    | .error e => .error e
    | .ok cpu => .ok cpu

/-- Model of the public entry point `execute_code_file`, from the point where
the source text has been read and UTF-8-validated: compile on a fresh
executor, reject an empty program with "No executable code found", otherwise
execute. -/
def execute_code_file (source : String) : RunOut :=
  match compile_code source with
  | .panicked => .panicked
  | .err e => .error e
  | .ok (mem, len) =>
    if len = 0 then .error "No executable code found"
    else
      match executeFrom VirtualCpu.new mem len with
      | .error e => .error e
      | .ok cpu => .ok cpu

/-- Plain (non-wrapping) value of a decimal digit string, used to state what
the wrapping decimal loop computes. -/
def decValue (cs : List Char) : Nat :=
  cs.foldl (fun r c => r * 10 + (c.toNat - 48)) 0

/-! ### Budget lemmas for the execute loop -/

/-- Fetch-decode cycles never exceed the remaining fuel. -/
theorem execLoopAux_fetches_le (mem : Memory) (len : Nat) :
    ∀ (fuel : Nat) (cpu : VirtualCpu) (count : Nat),
      (execLoopAux mem len fuel cpu count).fetches ≤ fuel := by
  intro fuel
  induction fuel with
  | zero =>
    intro cpu count
    unfold execLoopAux
    split
    · simp
    · simp
  | succ f ih =>
    intro cpu count
    unfold execLoopAux
    split
    · cases hs : step mem len cpu with
      | err e => simp
      | halt => simp
      | next c => simpa using Nat.succ_le_succ (ih c (count + 1))
    · simp

/-- If the loop exits with an instruction count at the budget, no in-loop
error was recorded (errors always leave the count strictly below the budget,
because the error iteration was entered under `count < max_instructions` and
does not increment the count). -/
theorem execLoopAux_limit_err (mem : Memory) (len : Nat) :
    ∀ (fuel : Nat) (cpu : VirtualCpu) (count : Nat),
      max_instructions ≤ (execLoopAux mem len fuel cpu count).count →
      (execLoopAux mem len fuel cpu count).err = none := by
  intro fuel
  induction fuel with
  | zero =>
    intro cpu count _
    unfold execLoopAux
    split
    · simp
    · simp
  | succ f ih =>
    intro cpu count
    unfold execLoopAux
    split
    · rename_i hcond
      cases hs : step mem len cpu with
      | err e =>
        intro h
        simp only [LoopOut.count] at h
        omega
      | halt => intro _; simp
      | next c =>
        intro h
        simp only [LoopOut.count, LoopOut.err] at h ⊢
        exact ih c (count + 1) h
    · intro _; simp

/-- When the loop exits with no recorded error but an instruction count at
the budget, the epilogue reports the execution-limit error. -/
theorem finishRun_limit (r : LoopOut) (he : r.err = none)
    (hc : max_instructions ≤ r.count) :
    finishRun r = .error "Program execution limit exceeded" := by
  unfold finishRun
  simp only [he, ge_iff_le, if_pos hc]

/-! ### The infinite backward jump `jmp 254` (offset byte 0xFE = −2) -/

/-- Buffer contents after compiling `"jmp 254"`: the two jump bytes followed
by the untouched zero tail. -/
def jmpBackMem : Memory := 0xEB :: 0xFE :: List.replicate 4094 0

/-- Compiling `"jmp 254"` produces exactly `jmpBackMem` with length 2. -/
theorem jmp254_compile : compile_code "jmp 254" = .ok (jmpBackMem, 2) := rfl

/-- One cycle of the `jmp 254` program from the zeroed CPU jumps straight
back to instruction pointer 0, leaving the CPU unchanged. -/
theorem jmp254_step :
    step (jmpBackMem) 2 VirtualCpu.new = .next VirtualCpu.new := rfl

/-- The `jmp 254` loop spins until the instruction count reaches the budget,
performing exactly one fetch per remaining unit of budget, with no error. -/
theorem jmp254_loopAux :
    ∀ (fuel count : Nat), count + fuel = max_instructions →
      execLoopAux (jmpBackMem) 2 fuel VirtualCpu.new count =
        ⟨VirtualCpu.new, max_instructions, fuel, none⟩ := by
  intro fuel
  induction fuel with
  | zero =>
    intro count h
    unfold execLoopAux
    rw [if_neg]
    · have hc : count = max_instructions := by omega
      rw [hc]
    · intro hcond
      exact absurd hcond.2 (by omega)
  | succ f ih =>
    intro count h
    unfold execLoopAux
    rw [if_pos ⟨by decide, by omega⟩, jmp254_step]
    show (let r := execLoopAux (jmpBackMem) 2 f VirtualCpu.new (count + 1);
      LoopOut.mk r.cpu r.count (r.fetches + 1) r.err) =
        ⟨VirtualCpu.new, max_instructions, f + 1, none⟩
    rw [ih (count + 1) (by omega)]

/-- Running the `jmp 254` loop from a fresh CPU reaches the full budget of
10000 counted instructions and 10000 fetches without any in-loop error. -/
theorem jmp254_loop :
    execLoop (jmpBackMem) 2 VirtualCpu.new 0 =
      ⟨VirtualCpu.new, max_instructions, max_instructions, none⟩ :=
  jmp254_loopAux max_instructions 0 rfl

/-! ### Decimal accumulator lemmas -/

/-- Folding the decimal step from congruent accumulators yields congruent
results modulo `m`. -/
theorem foldl_dec_mod (m : Nat) :
    ∀ (cs : List Char) (a b : Nat), a ≡ b [MOD m] →
      (cs.foldl (fun r c => r * 10 + (c.toNat - 48)) a) ≡
      (cs.foldl (fun r c => r * 10 + (c.toNat - 48)) b) [MOD m] := by
  intro cs
  induction cs with
  | nil => intro a b h; simpa using h
  | cons c cs ih =>
    intro a b h
    simp only [List.foldl_cons]
    exact ih _ _ ((h.mul_right 10).add_right _)

/-- On an all-digit suffix, the wrapping decimal loop accepts and computes
the plain decimal value reduced modulo 2^32. -/
theorem decLoop_ok :
    ∀ (cs : List Char) (r : Nat), r < 2 ^ 32 → (∀ c ∈ cs, c.isDigit) →
      decLoop r cs =
        .ok ((cs.foldl (fun a c => a * 10 + (c.toNat - 48)) r) % 2 ^ 32) := by
  intro cs
  induction cs with
  | nil =>
    intro r hr _
    simp only [decLoop, List.foldl_nil]
    rw [Nat.mod_eq_of_lt hr]
  | cons c cs ih =>
    intro r hr hd
    have hc : c.isDigit := hd c (List.mem_cons_self c cs)
    simp only [decLoop, hc, if_true]
    rw [ih _ (Nat.mod_lt _ (by norm_num)) (fun x hx => hd x (List.mem_cons_of_mem c hx))]
    simp only [List.foldl_cons]
    congr 1
    exact foldl_dec_mod (2 ^ 32) cs _ _ (Nat.mod_modEq _ _)

/-! ### Assembler write lemmas and the buffer-overflow source -/

/-- Residual form of compiling the line "mov eax, 1": everything except the
capacity check and the writes is concrete. -/
theorem compileLine_mov1 (mem : Memory) (n : Nat) :
    compileLine mem n "mov eax, 1".data =
      if n + 5 ≥ MEM_SIZE then .err "Program too large"
      else emitImm32Instr mem n 0xB8 "1".data := rfl

/-- Residual form of compiling the line "add eax, ebx": the capacity check
only demands ONE free byte before the two-byte emission. -/
theorem compileLine_addeaxebx (mem : Memory) (n : Nat) :
    compileLine mem n "add eax, ebx".data =
      if n ≥ MEM_SIZE then .err "Program too large"
      else emitPair mem n 0x01 0xD8 := rfl

/-- An in-range write succeeds and preserves the buffer length. -/
theorem setByte_lt (b : Nat) :
    ∀ (l : List Nat) (i : Nat), i < l.length →
      ∃ l2, setByte l i b = some l2 ∧ l2.length = l.length := by
  intro l
  induction l with
  | nil => intro i h; simp at h
  | cons x xs ih =>
    intro i h
    cases i with
    | zero => exact ⟨b :: xs, rfl, rfl⟩
    | succ j =>
      obtain ⟨l2, h1, h2⟩ := ih j (by simpa using h)
      refine ⟨x :: l2, ?_, by simp [h2]⟩
      simp [setByte, h1]

/-- An out-of-range write panics. -/
theorem setByte_ge (b : Nat) :
    ∀ (l : List Nat) (i : Nat), l.length ≤ i → setByte l i b = none := by
  intro l
  induction l with
  | nil => intro i _; rfl
  | cons x xs ih =>
    intro i h
    cases i with
    | zero => simp at h
    | succ j => simp [setByte, ih j (by simpa using h)]

/-- Writing the four immediate bytes in range succeeds and preserves the
buffer length. -/
theorem emitImm32_some (v : Nat) (l : List Nat) (i : Nat)
    (h : i + 4 ≤ l.length) :
    ∃ l2, emitImm32 l i v = some l2 ∧ l2.length = l.length := by
  obtain ⟨m1, e1, len1⟩ := setByte_lt (v % 256) l i (by omega)
  obtain ⟨m2, e2, len2⟩ := setByte_lt (v / 256 % 256) m1 (i + 1) (by omega)
  obtain ⟨m3, e3, len3⟩ := setByte_lt (v / 65536 % 256) m2 (i + 2) (by omega)
  obtain ⟨m4, e4, len4⟩ := setByte_lt (v / 16777216 % 256) m3 (i + 3) (by omega)
  exact ⟨m4, by simp [emitImm32, e1, e2, e3, e4], by omega⟩

/-- A 5-byte mov/cmp emission with a parsable immediate and five free bytes
succeeds, advancing the length by 5. -/
theorem emitImm32Instr_ok (mem : Memory) (n opb v : Nat) (tok : List Char)
    (hp : parse_immediate (String.mk tok) = .ok v) (h : n + 5 ≤ mem.length) :
    ∃ m2, emitImm32Instr mem n opb tok = .ok (m2, n + 5) ∧
      m2.length = mem.length := by
  obtain ⟨m1, e1, len1⟩ := setByte_lt opb mem n (by omega)
  obtain ⟨m2, e2, len2⟩ := emitImm32_some v m1 (n + 1) (by omega)
  exact ⟨m2, by simp [emitImm32Instr, e1, hp, e2], by omega⟩

/-- Compiling "mov eax, 1" with five free bytes in a 4096-byte buffer
succeeds and advances the length by 5. -/
theorem compileLine_mov1_ok (mem : Memory) (n : Nat)
    (hlen : mem.length = 4096) (h : n + 5 < 4096) :
    ∃ m2, compileLine mem n "mov eax, 1".data = .ok (m2, n + 5) ∧
      m2.length = 4096 := by
  rw [compileLine_mov1, if_neg (by unfold MEM_SIZE; omega)]
  obtain ⟨m2, e2, len2⟩ := emitImm32Instr_ok mem n 0xB8 1 "1".data rfl (by omega)
  exact ⟨m2, e2, by omega⟩

/-- The line fold splits across list append. -/
theorem compileLines_append (mem : Memory) (n : Nat) (l1 l2 : List (List Char)) :
    compileLines mem n (l1 ++ l2) =
      match compileLines mem n l1 with
      | .ok (m, n2) => compileLines m n2 l2
      | .err e => .err e
      | .panicked => .panicked := by
  induction l1 generalizing mem n with
  | nil => simp [compileLines]
  | cons l ls ih =>
    simp only [List.cons_append, compileLines]
    cases compileLine mem n l with
    | ok p =>
      cases p with
      | mk m n2 => simp [ih]
    | err e => rfl
    | panicked => rfl

/-- Compiling `k` copies of "mov eax, 1" from length `n` ends at length
`n + 5k` whenever that stays within 4095. -/
theorem compileLines_movs :
    ∀ (k : Nat) (mem : Memory) (n : Nat), mem.length = 4096 →
      n + 5 * k ≤ 4095 →
      ∃ m2, compileLines mem n (List.replicate k "mov eax, 1".data) =
        .ok (m2, n + 5 * k) ∧ m2.length = 4096 := by
  intro k
  induction k with
  | zero =>
    intro mem n h1 h2
    exact ⟨mem, by simp [compileLines], h1⟩
  | succ j ih =>
    intro mem n h1 h2
    obtain ⟨m1, e1, len1⟩ := compileLine_mov1_ok mem n h1 (by omega)
    obtain ⟨m2, e2, len2⟩ := ih m1 (n + 5) len1 (by omega)
    refine ⟨m2, ?_, len2⟩
    rw [List.replicate_succ]
    simp only [compileLines, e1, e2]
    have harith : n + 5 + 5 * j = n + 5 * (j + 1) := by ring
    rw [harith]


/-- Join lines with single newline separators (no trailing newline). -/
def joinNl : List (List Char) → List Char
  | [] => []
  | [l] => l
  | l :: ls => l ++ '\n' :: joinNl ls

/-- The buffer-overflow source: 819 lines of "mov eax, 1" (filling the
buffer to length 4095) followed by one "add eax, ebx" line. -/
def overflowSource : String :=
  ⟨joinNl (List.replicate 819 "mov eax, 1".data ++ ["add eax, ebx".data])⟩

/-- A newline-free tail yields a single final segment. -/
theorem linesAux_no_nl :
    ∀ (l acc : List Char), '\n' ∉ l → linesAux l acc = [acc.reverse ++ l] := by
  intro l
  induction l with
  | nil => intro acc _; simp [linesAux]
  | cons c cs ih =>
    intro acc h
    simp only [List.mem_cons, not_or] at h
    have hc : (c == '\n') = false := by
      simp only [beq_eq_false_iff_ne, ne_eq]
      exact fun he => h.1 he.symm
    simp only [linesAux, hc, Bool.false_eq_true, if_false]
    rw [ih (c :: acc) h.2]
    simp

/-- Splitting peels one newline-terminated segment at a time. -/
theorem linesAux_append_nl :
    ∀ (l rest acc : List Char), '\n' ∉ l →
      linesAux (l ++ '\n' :: rest) acc =
        (acc.reverse ++ l) :: linesAux rest [] := by
  intro l
  induction l with
  | nil => intro rest acc _; simp [linesAux]
  | cons c cs ih =>
    intro rest acc h
    simp only [List.mem_cons, not_or] at h
    have hc : (c == '\n') = false := by
      simp only [beq_eq_false_iff_ne, ne_eq]
      exact fun he => h.1 he.symm
    simp only [List.cons_append, List.append_eq, linesAux, hc, Bool.false_eq_true,
      if_false]
    rw [ih rest (c :: acc) h.2]
    simp

/-- Splitting inverts joining for nonempty lists of newline-free lines. -/
theorem joinNl_linesAux :
    ∀ (L : List (List Char)), L ≠ [] → (∀ l ∈ L, '\n' ∉ l) →
      linesAux (joinNl L) [] = L := by
  intro L
  induction L with
  | nil => intro h _; exact absurd rfl h
  | cons l ls ih =>
    intro _ hno
    cases ls with
    | nil =>
      simp only [joinNl]
      rw [linesAux_no_nl l [] (hno l (by simp))]
      simp
    | cons l2 ls2 =>
      show linesAux (l ++ '\n' :: joinNl (l2 :: ls2)) [] = l :: l2 :: ls2
      rw [linesAux_append_nl l _ [] (hno l (by simp))]
      rw [ih (by simp) (fun x hx => hno x (by simp [hx]))]
      simp

set_option maxHeartbeats 2000000 in
/-- The overflow source splits into its 820 constituent lines. -/
theorem rustLines_overflow :
    rustLines overflowSource =
      List.replicate 819 "mov eax, 1".data ++ ["add eax, ebx".data] := by
  unfold rustLines overflowSource
  rw [show (String.mk (joinNl (List.replicate 819 "mov eax, 1".data ++
    ["add eax, ebx".data]))).data = joinNl (List.replicate 819 "mov eax, 1".data ++
    ["add eax, ebx".data]) from rfl]
  rw [joinNl_linesAux _ (by simp) ?hno]
  case hno =>
    intro l hl
    rcases List.mem_append.mp hl with h | h
    · rw [(List.mem_replicate.mp h).2]
      decide
    · simp only [List.mem_singleton] at h
      rw [h]
      decide
  decide


/-! ### Memory locality of execution -/

/-- Two buffers agree on every byte below the program length. -/
def agreeBelow (len : Nat) (a b : Memory) : Prop :=
  ∀ i, i < len → getByte a i = getByte b i

/-- The 4-byte immediate read only touches bytes inside the program. -/
theorem readImm32_congr (a b : Memory) (len i : Nat) (hag : agreeBelow len a b)
    (h : i + 5 ≤ len) : readImm32 a i = readImm32 b i := by
  unfold readImm32
  rw [hag (i + 1) (by omega), hag (i + 2) (by omega), hag (i + 3) (by omega),
    hag (i + 4) (by omega)]

/-- A fetch-decode cycle reads only bytes below the program length: buffers
that agree there step identically. -/
theorem step_congr (a b : Memory) (len : Nat) (cpu : VirtualCpu)
    (hag : agreeBelow len a b) (hin : cpu.eip < len) :
    step a len cpu = step b len cpu := by
  have hop := hag cpu.eip hin
  unfold step
  rw [hop]
  by_cases h1 : getByte b cpu.eip = 0x90
  · rw [if_pos h1, if_pos h1]
  rw [if_neg h1, if_neg h1]
  by_cases h2 : getByte b cpu.eip = 0xB8
  · rw [if_pos h2, if_pos h2]
    by_cases hb : cpu.eip + 5 > len
    · rw [if_pos hb, if_pos hb]
    · rw [if_neg hb, if_neg hb, readImm32_congr a b len cpu.eip hag (by omega)]
  rw [if_neg h2, if_neg h2]
  by_cases h3 : getByte b cpu.eip = 0xBB
  · rw [if_pos h3, if_pos h3]
    by_cases hb : cpu.eip + 5 > len
    · rw [if_pos hb, if_pos hb]
    · rw [if_neg hb, if_neg hb, readImm32_congr a b len cpu.eip hag (by omega)]
  rw [if_neg h3, if_neg h3]
  by_cases h4 : getByte b cpu.eip = 0xB9
  · rw [if_pos h4, if_pos h4]
    by_cases hb : cpu.eip + 5 > len
    · rw [if_pos hb, if_pos hb]
    · rw [if_neg hb, if_neg hb, readImm32_congr a b len cpu.eip hag (by omega)]
  rw [if_neg h4, if_neg h4]
  by_cases h5 : getByte b cpu.eip = 0xBA
  · rw [if_pos h5, if_pos h5]
    by_cases hb : cpu.eip + 5 > len
    · rw [if_pos hb, if_pos hb]
    · rw [if_neg hb, if_neg hb, readImm32_congr a b len cpu.eip hag (by omega)]
  rw [if_neg h5, if_neg h5]
  by_cases h6 : getByte b cpu.eip = 0x01
  · rw [if_pos h6, if_pos h6]
  rw [if_neg h6, if_neg h6]
  by_cases h7 : getByte b cpu.eip = 0x29
  · rw [if_pos h7, if_pos h7]
  rw [if_neg h7, if_neg h7]
  by_cases h8 : getByte b cpu.eip = 0x3D
  · rw [if_pos h8, if_pos h8]
    by_cases hb : cpu.eip + 5 > len
    · rw [if_pos hb, if_pos hb]
    · rw [if_neg hb, if_neg hb, readImm32_congr a b len cpu.eip hag (by omega)]
  rw [if_neg h8, if_neg h8]
  by_cases h9 : getByte b cpu.eip = 0x74
  · rw [if_pos h9, if_pos h9]
    by_cases hb : cpu.eip + 2 > len
    · rw [if_pos hb, if_pos hb]
    · rw [if_neg hb, if_neg hb, hag (cpu.eip + 1) (by omega)]
  rw [if_neg h9, if_neg h9]
  by_cases h10 : getByte b cpu.eip = 0xEB
  · rw [if_pos h10, if_pos h10]
    by_cases hb : cpu.eip + 2 > len
    · rw [if_pos hb, if_pos hb]
    · rw [if_neg hb, if_neg hb, hag (cpu.eip + 1) (by omega)]
  rw [if_neg h10, if_neg h10]

/-- The whole execute loop reads only bytes below the program length. -/
theorem execLoopAux_congr (a b : Memory) (len : Nat) (hag : agreeBelow len a b) :
    ∀ (fuel : Nat) (cpu : VirtualCpu) (count : Nat),
      execLoopAux a len fuel cpu count = execLoopAux b len fuel cpu count := by
  intro fuel
  induction fuel with
  | zero =>
    intro cpu count
    unfold execLoopAux
    by_cases hc : cpu.eip < len ∧ count < max_instructions
    · simp only [if_pos hc]
    · simp only [if_neg hc]
  | succ f ih =>
    intro cpu count
    unfold execLoopAux
    by_cases hc : cpu.eip < len ∧ count < max_instructions
    · simp only [if_pos hc]
      rw [step_congr a b len cpu hag hc.1]
      cases hs : step b len cpu with
      | err e => rfl
      | halt => rfl
      | next c => simp only []; rw [ih c (count + 1)]
    · simp only [if_neg hc]

/-- Execution results depend only on the program bytes below the length. -/
theorem executeFrom_congr (a b : Memory) (len : Nat) (prior : VirtualCpu)
    (hag : agreeBelow len a b) :
    executeFrom prior a len = executeFrom prior b len := by
  unfold executeFrom execLoop
  rw [execLoopAux_congr a b len hag]


/-! ## Claim theorems -/

/-- C5: the execute loop performs at most 10000 fetch-decode cycles, and when
the instruction count reaches the 10000 cap (no terminating opcode broke out
of the loop, since a break always leaves the count below the cap), `execute`
fails with "Program execution limit exceeded" instead of reporting
success. -/
theorem c5_theorem (mem : Memory) (len : Nat) (priorCpu : VirtualCpu) :
    (execLoop mem len VirtualCpu.new 0).fetches ≤ max_instructions ∧
    (max_instructions ≤ (execLoop mem len VirtualCpu.new 0).count →
      executeFrom priorCpu mem len = .error "Program execution limit exceeded") := by
  constructor
  · exact execLoopAux_fetches_le mem len max_instructions VirtualCpu.new 0
  · intro h
    have herr : (execLoop mem len VirtualCpu.new 0).err = none :=
      execLoopAux_limit_err mem len max_instructions VirtualCpu.new 0 h
    exact finishRun_limit _ herr h

/-- C5 witness: the `jmp 254` program exercises the theorem at a concrete
input: its loop reaches the 10000-instruction cap and the run fails with
"Program execution limit exceeded". -/
theorem c5_witness :
    (execLoop (jmpBackMem) 2 VirtualCpu.new 0).fetches ≤ max_instructions ∧
    executeFrom VirtualCpu.new (jmpBackMem) 2 =
      .error "Program execution limit exceeded" :=
  ⟨(c5_theorem (jmpBackMem) 2 VirtualCpu.new).1,
   (c5_theorem (jmpBackMem) 2 VirtualCpu.new).2 (by rw [jmp254_loop])⟩

/-- C1 amended: when a taken relative jump (unconditional 0xEB, or
conditional 0x74 with the equal-flag set) computes a new instruction pointer
at or beyond the program length (including a negative signed-32-bit result
reinterpreted as a huge unsigned pointer), the very next fetch's bounds check
makes the loop EXIT WITH NO ERROR after that one jump cycle: the run then
terminates successfully (not with "unexpected end of program"), as the
separately proved counterexample run shows. -/
theorem c1_amended (mem : Memory) (len : Nat) (cpu : VirtualCpu) (count : Nat)
    (hin : cpu.eip < len) (hcnt : count < max_instructions)
    (hop : getByte mem cpu.eip = 0xEB ∨
      (getByte mem cpu.eip = 0x74 ∧ cpu.flags &&& 0x40 ≠ 0))
    (hfits : cpu.eip + 2 ≤ len)
    (hout : len ≤ jmpDest cpu.eip (getByte mem (cpu.eip + 1))) :
    execLoop mem len cpu count =
      ⟨{ cpu with eip := jmpDest cpu.eip (getByte mem (cpu.eip + 1)) },
        count + 1, 1, none⟩ := by
  have hstep : step mem len cpu =
      .next { cpu with eip := jmpDest cpu.eip (getByte mem (cpu.eip + 1)) } := by
    rcases hop with h | ⟨h, hflag⟩
    · simp only [step, h]
      norm_num
      intro hlt
      exact absurd hfits (Nat.not_le.mpr hlt)
    · simp only [step, h]
      norm_num
      rw [if_neg (Nat.not_lt.mpr hfits), if_neg hflag]
  have hrec : execLoopAux mem len (max_instructions - count - 1)
      { cpu with eip := jmpDest cpu.eip (getByte mem (cpu.eip + 1)) } (count + 1) =
      ⟨{ cpu with eip := jmpDest cpu.eip (getByte mem (cpu.eip + 1)) },
        count + 1, 0, none⟩ := by
    unfold execLoopAux
    rw [if_neg]
    intro hcond
    exact absurd hcond.1 (Nat.not_lt.mpr hout)
  obtain ⟨f, hf⟩ : ∃ f, max_instructions - count = f + 1 :=
    ⟨max_instructions - count - 1, by omega⟩
  unfold execLoop
  rw [hf]
  unfold execLoopAux
  rw [if_pos ⟨hin, hcnt⟩, hstep]
  show LoopOut.mk
      (execLoopAux mem len f
        { cpu with eip := jmpDest cpu.eip (getByte mem (cpu.eip + 1)) } (count + 1)).cpu
      (execLoopAux mem len f
        { cpu with eip := jmpDest cpu.eip (getByte mem (cpu.eip + 1)) } (count + 1)).count
      ((execLoopAux mem len f
        { cpu with eip := jmpDest cpu.eip (getByte mem (cpu.eip + 1)) } (count + 1)).fetches + 1)
      (execLoopAux mem len f
        { cpu with eip := jmpDest cpu.eip (getByte mem (cpu.eip + 1)) } (count + 1)).err = _
  rw [show f = max_instructions - count - 1 from by omega, hrec]


/-- C1 witness: the compiled `"jmp 100"` program exercises the amended
theorem: the single taken jump lands at 102, beyond length 2, and the loop
exits after one cycle with no error. -/
theorem c1_witness :
    execLoop (memOf "jmp 100") 2 VirtualCpu.new 0 =
      ⟨⟨0, 0, 0, 0, 102, 0⟩, 1, 1, none⟩ :=
  (c1_amended (memOf "jmp 100") 2 VirtualCpu.new 0 (by decide) (by decide)
    (Or.inl (by decide)) (by decide) (by decide)).trans (by decide)

/-- C2: REFUTED (code bug).  Compiling 819 "mov eax, 1" lines followed by
"add eax, ebx" reaches bytecode length 4095, where the add branch's capacity
check (which only guarantees one free byte) passes and the second byte of the
2-byte add encoding is written at index 4096 of the 4096-byte array: an
out-of-bounds write, i.e. a Rust panic, not the "Program too large" error the
claim requires. -/
theorem c2_theorem : compile_code overflowSource = .panicked := by
  have hlen : freshMemory.length = 4096 := by
    unfold freshMemory
    rw [List.length_replicate]
  obtain ⟨m2, e2, len2⟩ :=
    compileLines_movs 819 freshMemory 0 hlen (by norm_num)
  rw [show (0 : Nat) + 5 * 819 = 4095 from by norm_num] at e2
  unfold compile_code
  rw [rustLines_overflow, compileLines_append]
  simp only [e2]
  simp only [compileLines]
  rw [show compileLine m2 4095
      ['a', 'd', 'd', ' ', 'e', 'a', 'x', ',', ' ', 'e', 'b', 'x'] =
      (if 4095 ≥ MEM_SIZE then CRes.err "Program too large"
        else emitPair m2 4095 0x01 0xD8)
    from compileLine_addeaxebx m2 4095]
  rw [if_neg (by unfold MEM_SIZE; omega)]
  unfold emitPair
  obtain ⟨m3, e3, len3⟩ := setByte_lt 0x01 m2 4095 (by omega)
  simp only [e3]
  simp only [setByte_ge 0xD8 m3 (4095 + 1) (by omega)]


/-- C3 amended: compiling `"jmp -2"` fails with "Invalid jump offset"
(immediates admit no sign), so the claim's compile step fails as written; the
intended infinite backward jump is expressed as `"jmp 254"` (offset byte
0xFE, i.e. −2 as `i8`), which compiles to the buffer `[0xEB, 0xFE, 0, ...]`
of length 2, and executing that program performs exactly 10000 fetch-decode
cycles and then fails with the execution-limit-exceeded error. -/
theorem c3_amended :
    compile_code "jmp -2" = .err "Invalid jump offset" ∧
    compile_code "jmp 254" = .ok (jmpBackMem, 2) ∧
    (execLoop jmpBackMem 2 VirtualCpu.new 0).fetches = max_instructions ∧
    executeFrom VirtualCpu.new jmpBackMem 2 =
      .error "Program execution limit exceeded" := by
  refine ⟨rfl, jmp254_compile, by rw [jmp254_loop], ?_⟩
  unfold executeFrom
  rw [jmp254_loop]
  rfl

/-- C4: compiling `"mov eax, 10\nmov ebx, 5\nadd eax, ebx\nhalt"` produces
exactly the 13 bytes `[0xB8,0x0A,0,0,0, 0xBB,0x05,0,0,0, 0x01,0xD8, 0xCC]`,
and executing that program from a fresh zeroed machine terminates
successfully with EAX=15, EBX=5, ECX=0, EDX=0 and flags=0 (the final
instruction pointer rests on the halt byte at offset 12). -/
theorem c4_theorem :
    compiledBytes "mov eax, 10\nmov ebx, 5\nadd eax, ebx\nhalt" =
      some [0xB8, 0x0A, 0x00, 0x00, 0x00, 0xBB, 0x05, 0x00, 0x00, 0x00,
        0x01, 0xD8, 0xCC] ∧
    compile_and_execute "mov eax, 10\nmov ebx, 5\nadd eax, ebx\nhalt" =
      .ok ⟨15, 5, 0, 0, 12, 0⟩ :=
  ⟨rfl, rfl⟩

/-- C7: compiling `"mov eax, 5\ncmp eax, 5\nje 0\nhalt"` gives the expected
13 bytes; the CMP step from the post-MOV state sets the equal-flag (bit 0x40)
because EAX equals the immediate 5; the conditional-jump step from the
post-CMP state is taken with offset 0 and sets the instruction pointer to 12,
the address immediately following the jump, where the halt byte 0xCC lies;
and the whole run terminates successfully with EAX=5 and no error. -/
theorem c7_theorem :
    compiledBytes "mov eax, 5\ncmp eax, 5\nje 0\nhalt" =
      some [0xB8, 0x05, 0x00, 0x00, 0x00, 0x3D, 0x05, 0x00, 0x00, 0x00,
        0x74, 0x00, 0xCC] ∧
    step (memOf "mov eax, 5\ncmp eax, 5\nje 0\nhalt") 13 ⟨5, 0, 0, 0, 5, 0⟩ =
      .next ⟨5, 0, 0, 0, 10, 0x40⟩ ∧
    step (memOf "mov eax, 5\ncmp eax, 5\nje 0\nhalt") 13 ⟨5, 0, 0, 0, 10, 0x40⟩ =
      .next ⟨5, 0, 0, 0, 12, 0x40⟩ ∧
    getByte (memOf "mov eax, 5\ncmp eax, 5\nje 0\nhalt") 12 = 0xCC ∧
    compile_and_execute "mov eax, 5\ncmp eax, 5\nje 0\nhalt" =
      .ok ⟨5, 0, 0, 0, 12, 0x40⟩ :=
  ⟨rfl, rfl, rfl, rfl, rfl⟩

/-- C10: `parse_immediate` on the bare token "0x" (or "0X") returns `Ok(0)`
rather than an error, and the line "mov eax, 0x" compiles successfully to a
MOV with immediate 0. -/
theorem c10_theorem :
    parse_immediate "0x" = .ok 0 ∧ parse_immediate "0X" = .ok 0 ∧
    compiledBytes "mov eax, 0x" = some [0xB8, 0, 0, 0, 0] :=
  ⟨rfl, rfl, rfl⟩

/-- C1 counterexample: `"jmp 100"` is a taken unconditional jump whose offset
arithmetic lands at 102, beyond the 2-byte program, and `"jmp 128"` (offset
−128 as `i8`) produces a negative result reinterpreted as the huge unsigned
pointer 2^64−126; in both cases the run terminates SUCCESSFULLY rather than
failing with the "Unexpected end of program" error the claim predicts. -/
theorem c1_counterexample :
    compile_and_execute "jmp 100" = .ok ⟨0, 0, 0, 0, 102, 0⟩ ∧
    compile_and_execute "jmp 100" ≠ .error "Unexpected end of program" ∧
    compile_and_execute "jmp 128" =
      .ok ⟨0, 0, 0, 0, 18446744073709551490, 0⟩ ∧
    compile_and_execute "jmp 128" ≠ .error "Unexpected end of program" :=
  ⟨rfl, by decide, rfl, by decide⟩

/-- C3 counterexample: compiling the source `"jmp -2"` does NOT succeed: the
immediate grammar has no sign, so the '-' character is rejected and
compilation fails with "Invalid jump offset". -/
theorem c3_counterexample :
    compile_code "jmp -2" = .err "Invalid jump offset" :=
  rfl

/-- C8: compilation and execution are deterministic pure functions of the
source bytes: compiling and running a source twice (each time on a freshly
constructed executor, as `compile_and_execute` does) gives identical results;
moreover no state leaks into a run, in two senses proved from the model: the
executor's pre-run CPU state is discarded by the `reset` at the start of
`execute`, and the run result depends only on the program bytes below the
bytecode length (stale buffer contents beyond the program are unread). -/
theorem c8_theorem :
    (∀ s : String, compile_and_execute s = compile_and_execute s) ∧
    (∀ (cpuA cpuB : VirtualCpu) (mem : Memory) (len : Nat),
      executeFrom cpuA mem len = executeFrom cpuB mem len) ∧
    (∀ (a b : Memory) (len : Nat) (prior : VirtualCpu), agreeBelow len a b →
      executeFrom prior a len = executeFrom prior b len) :=
  ⟨fun _ => rfl, fun _ _ _ _ => rfl,
   fun a b len prior hag => executeFrom_congr a b len prior hag⟩

/-- C8 witness: corrupting a buffer byte beyond the program (index 7 of the
2-byte `jmp 100` program) does not change the execution result. -/
theorem c8_witness :
    executeFrom VirtualCpu.new (memOf "jmp 100") 2 =
      executeFrom VirtualCpu.new (List.set (memOf "jmp 100") 7 99) 2 :=
  c8_theorem.2.2 (memOf "jmp 100") (List.set (memOf "jmp 100") 7 99) 2
    VirtualCpu.new (by unfold agreeBelow; decide)

/-- C9: if a source compiles successfully to zero bytecode bytes, the public
entry point `execute_code_file` does not run the machine and returns the
error "No executable code found". -/
theorem c9_theorem (s : String) (mem : Memory)
    (h : compile_code s = .ok (mem, 0)) :
    execute_code_file s = .error "No executable code found" := by
  unfold execute_code_file
  rw [h]
  rfl

/-- C9 witness: a source of only blank and comment lines compiles to zero
bytes and `execute_code_file` rejects it with "No executable code found". -/
theorem c9_witness :
    execute_code_file "; a comment\n\n   ; another" =
      .error "No executable code found" :=
  c9_theorem ("; a comment\n\n   ; another") freshMemory rfl

/-- C6: for every decimal immediate token consisting only of ASCII digits
(hence with no 0x/0X prefix), `parse_immediate` accepts it with no overflow
detection: the result is the token's plain decimal value wrapped silently
modulo 2^32. -/
theorem c6_theorem (s : String) (hdig : ∀ c ∈ s.data, c.isDigit) :
    parse_immediate s = .ok (decValue s.data % 2 ^ 32) := by
  have hdl : decLoop 0 s.data = .ok (decValue s.data % 2 ^ 32) :=
    decLoop_ok s.data 0 (by norm_num) hdig
  unfold parse_immediate
  split
  · rename_i rest heq
    exfalso
    have hx := hdig 'x' (by rw [heq]; simp)
    simp [Char.isDigit] at hx
  · rename_i rest heq
    exfalso
    have hx := hdig 'X' (by rw [heq]; simp)
    simp [Char.isDigit] at hx
  · exact hdl

/-- C6 witness: the token "4294967296" (2^32, one past the largest `u32`)
consists only of digits, parses successfully, and wraps to 0. -/
theorem c6_witness :
    parse_immediate "4294967296" = .ok (decValue "4294967296".data % 2 ^ 32) ∧
    parse_immediate "4294967296" = .ok 0 :=
  ⟨ c6_theorem ("4294967296") (by decide), rfl ⟩

end CodeSystem
